import Mathlib

/-!
Verification of the documentation-hygiene scripts `scripts/organize-docs.py`
and `scripts/verify-markdown-links.py`.

The filesystem is modelled shallowly: an absolute path is a list of segments
(the repository root is the fixed one-segment path `ROOT = ["r"]`), and the
tree is an association list from file paths to their textual contents together
with a list of existing directories.  Python strings are Lean `String`s;
every string operation the scripts use (`in`, `str.replace`, `str.upper`,
`os.path.relpath`, `urllib.parse`, ...) is re-implemented below with
structurally recursive definitions so that all of them evaluate by `rfl` /
`decide`.  Scanning order (`rglob`) is modelled as the order of the
association list, which matches the scripts' requirement that traversal be
deterministic.  Files are assumed decodable (a `UnicodeDecodeError` skip has
no counterpart on Lean strings).
-/

/-- An absolute filesystem path, as its list of segments below `/`. -/
abbrev FilePath0 := List String

/-! ### String primitives (models of the Python built-ins used by the code) -/

/-- Split a character list on a separator character (model of `str.split(sep)`). -/
def splitListOn (sep : Char) : List Char → List (List Char)
  | [] => [[]]
  | c :: t =>
    let r := splitListOn sep t
    if c = sep then [] :: r
    else
      match r with
      | h :: t2 => (c :: h) :: t2
      | [] => [[c]]

/-- `pat` occurs as a contiguous substring of `text` (model of Python `pat in text`). -/
def containsSubList (text pat : List Char) : Bool :=
  if pat.isPrefixOf text then true
  else
    match text with
    | [] => false
    | _ :: t => containsSubList t pat

/-- Replace every (leftmost, non-overlapping) occurrence of `pat` in the text by
`rep`, as Python's `str.replace`.  The fuel argument only bounds the recursion;
each step consumes at least one character, so the text's length suffices. -/
def replaceAux (pat rep : List Char) : Nat → List Char → List Char
  | 0, text => text
  | fuel + 1, text =>
    match text with
    | [] => []
    | c :: t =>
      if pat ≠ [] ∧ pat.isPrefixOf text then
        rep ++ replaceAux pat rep fuel (text.drop pat.length)
      else
        c :: replaceAux pat rep fuel t

/-- Model of Python `text.replace(pat, rep)` (for the nonempty needles the code uses). -/
def strReplace (text pat rep : String) : String :=
  String.mk (replaceAux pat.toList rep.toList text.toList.length text.toList)

/-- Model of Python `pat in text` on strings. -/
def strContains (text pat : String) : Bool :=
  containsSubList text.toList pat.toList

/-- Model of Python `text.startswith(pat)`. -/
def strStarts (text pat : String) : Bool :=
  pat.toList.isPrefixOf text.toList

/-- Model of Python `text.endswith(pat)`. -/
def strEnds (text pat : String) : Bool :=
  pat.toList.isSuffixOf text.toList

/-- Model of Python `str.upper` (the keyword tables are ASCII). -/
def strUpper (s : String) : String :=
  String.mk (s.toList.map Char.toUpper)

/-- Model of Python `str.lower` (used by `urlparse` on the scheme). -/
def strLower (s : String) : String :=
  String.mk (s.toList.map Char.toLower)

/-- Model of Python `str.strip`. -/
def strTrim (s : String) : String :=
  String.mk (((s.toList.dropWhile Char.isWhitespace).reverse.dropWhile Char.isWhitespace).reverse)

/-- Join strings with a separator (model of `str.join` / `"\n".join`). -/
def joinSep (sep : String) : List String → String
  | [] => ""
  | [x] => x
  | x :: y :: t => x ++ sep ++ joinSep sep (y :: t)

/-- First index of a character in a list, if any. -/
def idxOf? (c : Char) : List Char → Option Nat
  | [] => none
  | x :: t => if x = c then some 0 else (idxOf? c t).map (· + 1)

/-- Index of the last `'.'` of a name, if any (model of `str.rfind('.')`). -/
def lastDotIdx : List Char → Option Nat
  | [] => none
  | c :: t =>
    match lastDotIdx t with
    | some i => some (i + 1)
    | none => if c = '.' then some 0 else none

/-- Keep the first occurrence of each element (the fixed iteration order this
model assigns to the Python `set` literal in `update_links`, whose own
iteration order is unspecified). -/
def dedupFirst : List String → List String
  | [] => []
  | x :: t => x :: (dedupFirst t).filter (fun y => y ≠ x)

/-! ### Path primitives (models of `pathlib` / `os.path`) -/

/-- Segments of a path string: `pathlib` drops empty segments and `"."`
(`Path("./b.md").parts == ("b.md",)`), and keeps `".."`. -/
def splitPath (s : String) : List String :=
  ((splitListOn '/' s.toList).map String.mk).filter (fun seg => seg ≠ "" ∧ seg ≠ ".")

/-- `str(path)` for an absolute path. -/
def pathString (p : FilePath0) : String :=
  "/" ++ joinSep "/" p

/-- The name (final component) of a path. -/
def fileName (p : FilePath0) : String :=
  p.getLastD ""

/-- Model of `pathlib.PurePath.stem`: the name without its final suffix; a
suffix needs its dot strictly inside the name (`Path("NEWS.md").stem == "NEWS"`,
`Path(".env").stem == ".env"`). -/
def stemOfName (n : String) : String :=
  let cs := n.toList
  match lastDotIdx cs with
  | some i => if 0 < i ∧ i + 1 < cs.length then String.mk (cs.take i) else n
  | none => n

/-- Lexical normalization of an absolute segment list, as the non-strict
`Path.resolve()` of a symlink-free tree: `"."` is dropped and `".."` pops
(clamping at the filesystem root, as `/..` resolves to `/`). -/
def normalizeAbs (segs : List String) : FilePath0 :=
  segs.foldl
    (fun acc s =>
      if s = "." then acc
      else if s = ".." then acc.dropLast
      else acc ++ [s])
    []

/-- Length of the common prefix of two segment lists. -/
def commonPrefixLen : List String → List String → Nat
  | a :: as, b :: bs => if a = b then commonPrefixLen as bs + 1 else 0
  | _, _ => 0

/-- Model of `os.path.relpath(p, start)` on absolute paths (purely lexical). -/
def relpath (p start : FilePath0) : List String :=
  let i := commonPrefixLen p start
  let res := List.replicate (start.length - i) ".." ++ p.drop i
  if res = [] then ["."] else res

/-- `as_posix` of a relative segment list. -/
def posixOf (segs : List String) : String :=
  joinSep "/" segs

/-! ### Shared configuration (`ROOT`, skip set, allow set) -/

/-- The repository root (`pathlib.Path(__file__).resolve().parent.parent`): a
fixed absolute directory, modelled as the one-segment path `/r`. -/
def ROOT : FilePath0 := ["r"]

/-- `p.relative_to(ROOT)` (defined on the in-tree paths the scripts apply it to). -/
def relToRoot (p : FilePath0) : List String :=
  p.drop ROOT.length

/-- `f"{p.relative_to(ROOT)}"`, the POSIX rendering of the root-relative path. -/
def relString (p : FilePath0) : String :=
  posixOf (relToRoot p)

def SKIP_DIRS : List String :=
  ["node_modules", "vendor", "storage", "public", "bootstrap",
   ".git", ".idea", ".vscode", "vendor-bin"]

def ALLOWED_ROOT_FILES : List FilePath0 :=
  [ROOT ++ ["README.md"]]

def ALLOWED_PREFIXES : List FilePath0 :=
  [ROOT ++ ["docs"], ROOT ++ ["tests"], ROOT ++ ["resources", "markdown"],
   ROOT ++ [".github"], ROOT ++ [".kiro"]]

def TEXT_SUFFIXES : List String :=
  [".md", ".mdx", ".php", ".blade.php", ".js", ".ts", ".tsx", ".json",
   ".yaml", ".yml", ".neon", ".xml", ".html", ".css", ".scss", ".txt"]

/-- `should_skip` / the checker's skip test: some path component is a skip directory. -/
def should_skip (p : FilePath0) : Bool :=
  p.any (fun part => SKIP_DIRS.contains part)

/-- `prefix in path.parents`: the parents of a path are its proper ancestor paths. -/
def isParentOf (pre p : FilePath0) : Bool :=
  pre.isPrefixOf p && pre ≠ p

/-- `is_allowed` of `organize-docs.py`. -/
def is_allowed (p : FilePath0) : Bool :=
  ALLOWED_ROOT_FILES.contains p
    || ALLOWED_PREFIXES.any (fun pre => isParentOf pre p || p == pre)

/-- A path `rglob("*.md")` yields: its name matches `*.md`. -/
def isMdPath (p : FilePath0) : Bool :=
  strEnds (fileName p) ".md"

/-! ### The model filesystem -/

/-- The state of the tree: files (path and textual content, in deterministic
traversal order) and existing directories. -/
structure FS where
  files : List (FilePath0 × String)
  dirs : List FilePath0
deriving DecidableEq, Repr

def FS.mkFS (files : List (FilePath0 × String)) (dirs : List FilePath0) : FS :=
  ⟨files, dirs⟩

def FS.withFiles (fs : FS) (files : List (FilePath0 × String)) : FS :=
  ⟨files, fs.dirs⟩

def FS.withDirs (fs : FS) (dirs : List FilePath0) : FS :=
  ⟨fs.files, dirs⟩

/-- `path.exists()`: a file or a directory is at the path. -/
def fsExists (fs : FS) (p : FilePath0) : Bool :=
  (List.lookup p fs.files).isSome || fs.dirs.contains p

/-! ### `organize-docs.py` -/

/-- `find_markdown()` composed with the stray filter of `find_stray_markdown()`. -/
def find_stray_markdown (fs : FS) : List FilePath0 :=
  (fs.files.map (·.1)).filter
    (fun p => isMdPath p && !should_skip p && !is_allowed p)

/-- The ordered keyword-rule table of `guess_target_folder`. -/
def patterns : List (List String × String) :=
  [ (["NEWS", "SECURITY"], "docs/news/security"),
    (["NEWS"], "docs/news"),
    (["ADMIN"], "docs/admin"),
    (["COMMENT"], "docs/comments"),
    (["DESIGN", "TOKEN"], "docs/design-tokens"),
    (["ACCESS"], "docs/accessibility"),
    (["INTERFACE"], "docs/interface"),
    (["OPTIMISTIC"], "docs/optimistic-ui"),
    (["SCOPE"], "docs/query-scopes"),
    (["SECURITY"], "docs/security"),
    (["VALIDATION"], "docs/validation"),
    (["REQUEST"], "docs/validation"),
    (["ROUTE"], "docs/routing"),
    (["UI"], "docs/ui-ux"),
    (["UX"], "docs/ui-ux"),
    (["TAILWIND"], "docs/ui-ux"),
    (["MODAL"], "docs/ui-ux"),
    (["PROJECT"], "docs/project"),
    (["PLAN"], "docs/planning"),
    (["TODO"], "docs/planning"),
    (["TASK"], "docs/planning"),
    (["DOCUMENTATION"], "docs/documentation"),
    (["I18N"], "docs/i18n"),
    (["LOCALE"], "docs/i18n"),
    (["LIVEWIRE"], "docs/livewire"),
    (["VOLT"], "docs/volt"),
    (["API"], "docs/api") ]

/-- The `for keywords, folder in patterns` loop: first rule whose keywords all
occur in the (already uppercased) name wins, else the default folder. -/
def pick (name : String) : List (List String × String) → String
  | [] => "docs/misc"
  | (kws, folder) :: rest =>
    if kws.all (fun k => strContains name k) then folder else pick name rest

/-- `guess_target_folder(filename)`. -/
def guess_target_folder (filename : String) : FilePath0 :=
  ROOT ++ splitPath (pick (strUpper filename) patterns)

/-- All ancestor directories a recursive `mkdir(parents=True)` of `d` touches
(including `d` itself). -/
def ancestors (d : FilePath0) : List FilePath0 :=
  (List.range d.length).map (fun i => d.take (i + 1))

/-- `target_dir.mkdir(parents=True, exist_ok=True)`: create the directory and
its missing ancestors, tolerating any that already exist. -/
def mkdirParents (fs : FS) (d : FilePath0) : FS :=
  fs.withDirs (fs.dirs ++ (ancestors d).filter (fun a => !fs.dirs.contains a))

/-- `shutil.move(source, destination)`: the destination gets the source's
content and the source entry disappears. -/
def moveFile (fs : FS) (src dst : FilePath0) : FS :=
  match List.lookup src fs.files with
  | some c => fs.withFiles (fs.files.filter (fun e => !(e.1 == src)) ++ [(dst, c)])
  | none => fs

/-- The `SystemExit` message of a destination conflict in `move_stray_files`. -/
def conflictMsg (destination : FilePath0) : String :=
  "Refusing to overwrite existing file: " ++ pathString destination ++
    ". Resolve the conflict and rerun the command."

/-- `move_stray_files(stray_files)`.  A raised `SystemExit` is the `error`
case; it carries the message together with the filesystem state at the moment
of the raise (the real script leaves that state on disk). -/
def move_stray_files (fs : FS) :
    List FilePath0 → Except (String × FS) (FS × List (FilePath0 × FilePath0))
  | [] => .ok (fs, [])
  | source :: rest =>
    let target_dir := guess_target_folder (stemOfName (fileName source))
    let fs1 := mkdirParents fs target_dir
    let destination := target_dir ++ [fileName source]
    if fsExists fs1 destination then
      .error (conflictMsg destination, fs1)
    else
      match move_stray_files (moveFile fs1 source destination) rest with
      | .ok (fs2, moves) => .ok (fs2, (source, destination) :: moves)
      | .error e => .error e

/-- `any(str(path).endswith(suffix) for suffix in TEXT_SUFFIXES)`. -/
def isTextFile (p : FilePath0) : Bool :=
  TEXT_SUFFIXES.any (fun suffix => strEnds (pathString p) suffix)

/-- The inner double loop of `update_links` on one file's text: for each move,
replace every candidate old spelling by the new relative spelling. -/
def rewriteText (mapping : List (String × FilePath0)) (file_path : FilePath0)
    (text : String) : String :=
  mapping.foldl
    (fun t m =>
      let new_rel := posixOf (relpath m.2 file_path.dropLast)
      let old_rel_from_file := posixOf (relpath (ROOT ++ splitPath m.1) file_path.dropLast)
      let candidates :=
        dedupFirst [m.1, "./" ++ m.1, old_rel_from_file, "./" ++ old_rel_from_file]
      candidates.foldl
        (fun t needle => if strContains t needle then strReplace t needle new_rel else t)
        t)
    text

/-- `update_links(moves)`: rewrite each text-bearing, non-skipped file and
return the new tree with the list of file paths whose content changed. -/
def update_links (fs : FS) (moves : List (FilePath0 × FilePath0)) :
    FS × List FilePath0 :=
  if moves.isEmpty then (fs, [])
  else
    let mapping := moves.map (fun m => (posixOf (relToRoot m.1), m.2))
    let step := fun (p : FilePath0) (text : String) =>
      if isTextFile p && !should_skip p then rewriteText mapping p text else text
    (fs.withFiles (fs.files.map (fun e => (e.1, step e.1 e.2))),
     fs.files.filterMap (fun e => if step e.1 e.2 ≠ e.2 then some e.1 else none))

/-- `(ROOT / "docs").glob("*.md")` minus `README.md`: the immediate children of
the docs root (files or directories) matching `*.md`, other than the index. -/
def docsRootOffenders (fs : FS) : List FilePath0 :=
  (fs.files.map (·.1) ++ fs.dirs).filter
    (fun p =>
      (ROOT ++ ["docs"]).isPrefixOf p && p.length = ROOT.length + 2
        && strEnds (fileName p) ".md" && fileName p ≠ "README.md")

/-- The `SystemExit` message of `ensure_docs_root_only_index`. -/
def docsRootMsg (offenders : List FilePath0) : String :=
  "Docs root should only contain docs/README.md. Move these files into function folders:\n"
    ++ joinSep "\n" (offenders.map (fun p => " - " ++ relString p))

/-- `ensure_docs_root_only_index()`. -/
def ensure_docs_root_only_index (fs : FS) : Except String Unit :=
  let root_md := docsRootOffenders fs
  if root_md = [] then .ok () else .error (docsRootMsg root_md)

/-- The detect-only `SystemExit` message of `main`. -/
def strayDetectMsg (n : Nat) : String :=
  "Found " ++ toString n ++ " Markdown file(s) outside docs/. " ++
    "Re-run with --fix to move them automatically."

/-- The post-fix `SystemExit` message of `main`. -/
def remainingMsg (strays : List FilePath0) : String :=
  "Some Markdown files are still outside docs/ after attempting to fix:\n"
    ++ joinSep "\n" (strays.map (fun p => " - " ++ relString p))

/-- The stray-handling `if/elif/else` of `main` (everything before the call to
`ensure_docs_root_only_index`), returning the tree it leaves behind. -/
def organizerPhase1 (fix : Bool) (fs : FS) : Except String FS :=
  let stray := find_stray_markdown fs
  if fix && !stray.isEmpty then
    match move_stray_files fs stray with
    | .error e => .error e.1
    | .ok (fs1, moves) => .ok (update_links fs1 moves).1
  else if !stray.isEmpty then .error (strayDetectMsg stray.length)
  else .ok fs

/-- `main()` of `organize-docs.py`: stray handling, then the docs-root check,
then (in fix mode) the convergence re-check; a `SystemExit` is the `error` case. -/
def organizerMain (fix : Bool) (fs : FS) : Except String FS :=
  match organizerPhase1 fix fs with
  | .error msg => .error msg
  | .ok fs2 =>
    match ensure_docs_root_only_index fs2 with
    | .error msg => .error msg
    | .ok _ =>
      if fix && !(find_stray_markdown fs2).isEmpty then
        .error (remainingMsg (find_stray_markdown fs2))
      else .ok fs2

/-! ### `verify-markdown-links.py` -/

def SKIP_SCHEMES : List String := ["http", "https", "mailto", "tel"]

/-- The characters CPython's `urlsplit` admits in a scheme. -/
def isSchemeChar (c : Char) : Bool :=
  c.isAlphanum || c = '+' || c = '-' || c = '.'

/-- Scheme extraction of `urllib.parse.urlsplit`: a nonempty run of scheme
characters starting with a letter, up to the first `':'`; otherwise no scheme. -/
def splitScheme (href : String) : String × String :=
  match idxOf? ':' href.toList with
  | some i =>
    let pre := href.toList.take i
    if 0 < i ∧ (pre.headD ' ').isAlpha ∧ pre.all isSchemeChar then
      (strLower (String.mk pre), String.mk (href.toList.drop (i + 1)))
    else ("", href)
  | none => ("", href)

/-- `urlparse` also strips a `;params` part from the final path segment. -/
def dropParams (path : String) : String :=
  let segs := (splitListOn '/' path.toList).map String.mk
  let lastSeg := String.mk ((segs.getLastD "").toList.takeWhile (· ≠ ';'))
  joinSep "/" (segs.dropLast ++ [lastSeg])

/-- The `(scheme, path)` of `urllib.parse.urlparse(href)`: scheme split, then
an optional `//netloc` (ending at the first of `/?#`), then the fragment after
the first `'#'` and the query after the first `'?'` are cut off the path. -/
def urlparse (href : String) : String × String :=
  let sp := splitScheme href
  let rest :=
    if strStarts sp.2 "//" then
      String.mk (((sp.2.toList.drop 2)).dropWhile (fun c => c ≠ '/' ∧ c ≠ '?' ∧ c ≠ '#'))
    else sp.2
  let beforeFrag := String.mk (rest.toList.takeWhile (· ≠ '#'))
  let path := String.mk (beforeFrag.toList.takeWhile (· ≠ '?'))
  (sp.1, dropParams path)

/-- Value of one hex digit, if it is one. -/
def hexVal (c : Char) : Option Nat :=
  if '0' ≤ c ∧ c ≤ '9' then some (c.toNat - '0'.toNat)
  else if 'a' ≤ c ∧ c ≤ 'f' then some (c.toNat - 'a'.toNat + 10)
  else if 'A' ≤ c ∧ c ≤ 'F' then some (c.toNat - 'A'.toNat + 10)
  else none

/-- Model of `urllib.parse.unquote` on single-byte percent escapes (an escape
with invalid hex digits stays literal, as in Python; multi-byte UTF-8 escape
sequences do not occur in the repository's links). -/
def unquoteAux : List Char → List Char
  | '%' :: a :: b :: rest =>
    match hexVal a, hexVal b with
    | some x, some y => Char.ofNat (16 * x + y) :: unquoteAux rest
    | _, _ => '%' :: unquoteAux (a :: b :: rest)
  | c :: rest => c :: unquoteAux rest
  | [] => []

def unquote (s : String) : String :=
  String.mk (unquoteAux s.toList)

/-- `should_check(href)` of `verify-markdown-links.py`. -/
def should_check (href : String) : Bool :=
  let h := strTrim href
  if h = "" || strStarts h "#" || strStarts h "//" then false
  else
    let parsed := urlparse h
    if SKIP_SCHEMES.contains parsed.1 then false
    else strEnds parsed.2 ".md"

/-- `resolve_target(current_file, href)`: `none` is the function's `None`
(target outside the repository root). -/
def resolve_target (current_file : FilePath0) (href : String) : Option FilePath0 :=
  let parsed := urlparse href
  let path := unquote parsed.2
  let path := String.mk (path.toList.takeWhile (· ≠ '#'))
  let path := String.mk (path.toList.takeWhile (· ≠ '?'))
  let target :=
    if !strStarts path "/" then
      normalizeAbs (current_file.dropLast ++ splitPath path)
    else
      normalizeAbs (ROOT ++ splitPath path)
  if ROOT.isPrefixOf target then some target else none

/-- The hrefs `LINK_RE = \[[^\]]+\]\(([^)]+)\)` captures, left to right and
non-overlapping, as `re.finditer` yields them.  The fuel only bounds the
recursion; every step consumes at least one character, so the text's length
suffices. -/
def extractAux : Nat → List Char → List String
  | 0, _ => []
  | _ + 1, [] => []
  | fuel + 1, c :: cs =>
    if c = '[' then
      let label := cs.takeWhile (· ≠ ']')
      match label, cs.dropWhile (· ≠ ']') with
      | _ :: _, ']' :: '(' :: r2 =>
        let href := r2.takeWhile (· ≠ ')')
        match href, r2.dropWhile (· ≠ ')') with
        | _ :: _, ')' :: r3 => String.mk href :: extractAux fuel r3
        | _, _ => extractAux fuel cs
      | _, _ => extractAux fuel cs
    else extractAux fuel cs

/-- All link hrefs of a file's text. -/
def extractHrefs (text : String) : List String :=
  extractAux text.toList.length text.toList

/-- `iter_markdown()`: the scanned Markdown files, with their contents. -/
def iter_markdown (fs : FS) : List (FilePath0 × String) :=
  fs.files.filter (fun e => !should_skip e.1 && isMdPath e.1)

/-- `target is None or not target.exists()`: the checker's failure test for
one in-scope href. -/
def brokenPred (fs : FS) (md_file : FilePath0) (href : String) : Bool :=
  match resolve_target md_file href with
  | none => true
  | some target => !fsExists fs target

/-- The hrefs of one file the checker's loop records as broken. -/
def brokenHrefs (fs : FS) (md_file : FilePath0) (text : String) : List String :=
  (extractHrefs text).filter
    (fun href => should_check href && brokenPred fs md_file href)

/-- The accumulated `errors` of the checker's `main()`, as (referencing file,
href) pairs; the script prints each as `relative-path -> href`. -/
def checkerErrors (fs : FS) : List (FilePath0 × String) :=
  (iter_markdown fs).flatMap
    (fun e => (brokenHrefs fs e.1 e.2).map (fun href => (e.1, href)))

/-- The exit code of the checker's `main()`. -/
def checkerExit (fs : FS) : Nat :=
  if checkerErrors fs = [] then 0 else 1

/-- The headline the checker prints. -/
def checkerTopLine (fs : FS) : String :=
  if checkerErrors fs = [] then "Markdown link check passed."
  else "Broken Markdown links found:"

/-! ### Basic lemmas about the string model -/

theorem strAppend_toList (s t : String) : (s ++ t).toList = s.toList ++ t.toList := by
  cases s; cases t; rfl

theorem isPrefixOfIff {α : Type} [BEq α] [LawfulBEq α] {l p : List α} :
    p.isPrefixOf l = true ↔ p <+: l :=
  List.isPrefixOf_iff_prefix

theorem containsSubList_infix_iff (t pat : List Char) :
    containsSubList t pat = true ↔ pat <:+: t := by
  induction t with
  | nil =>
    simp only [containsSubList]
    constructor
    · intro h
      split at h
      · next hp => exact (isPrefixOfIff.mp hp).isInfix
      · exact absurd h (by simp)
    · intro h
      have : pat = [] := by simpa using h.sublist
      simp [this, List.isPrefixOf]
  | cons c cs ih =>
    simp only [containsSubList]
    constructor
    · intro h
      split at h
      · next hp => exact (isPrefixOfIff.mp hp).isInfix
      · exact (List.infix_cons_iff.mpr (Or.inr (ih.mp h)))
    · intro h
      rcases List.infix_cons_iff.mp h with hp | hi
      · simp [isPrefixOfIff.mpr hp]
      · split
        · rfl
        · exact ih.mpr hi

theorem strContains_infix_iff (t pat : String) :
    strContains t pat = true ↔ pat.toList <:+: t.toList :=
  containsSubList_infix_iff t.toList pat.toList

theorem strContains_middle (a b c : String) : strContains (a ++ b ++ c) b = true := by
  rw [strContains_infix_iff, strAppend_toList, strAppend_toList]
  exact List.infix_append _ _ _

theorem strContains_of_sub {t pat big : String}
    (h : strContains big pat = true) (hi : big.toList <:+: t.toList) :
    strContains t pat = true := by
  rw [strContains_infix_iff] at h ⊢
  exact h.trans hi

/-- Each member of a list is a substring of the `joinSep`-joined whole. -/
theorem joinSep_member_occurs (sep : String) (xs : List String) (x : String)
    (hx : x ∈ xs) : x.toList <:+: (joinSep sep xs).toList := by
  induction xs with
  | nil => simp at hx
  | cons y t ih =>
    cases t with
    | nil =>
      simp only [List.mem_singleton] at hx
      simp [joinSep, hx]
    | cons z t2 =>
      rcases List.mem_cons.mp hx with h | h
      · subst h
        simp only [joinSep, strAppend_toList]
        exact ((List.prefix_append x.toList _).isInfix).trans
          ((List.prefix_append _ _).isInfix)
      · have := ih h
        simp only [joinSep, strAppend_toList]
        exact this.trans (List.suffix_append _ _).isInfix

/-! ### Lemmas about the classifier -/

/-- The loop of `guess_target_folder` is the first-match-wins rule lookup. -/
theorem pick_eq_find (name : String) (ps : List (List String × String)) :
    pick name ps =
      (match ps.find? (fun r => r.1.all (fun k => strContains name k)) with
       | some r => r.2
       | none => "docs/misc") := by
  induction ps with
  | nil => rfl
  | cons r rest ih =>
    cases r with
    | mk kws folder =>
      simp only [pick, List.find?]
      cases h : kws.all (fun k => strContains name k) with
      | true => simp [h]
      | false => simp [h, ih]

/-- Whatever the stem, the loop answers with a rule's folder or the default. -/
theorem pick_mem (name : String) (ps : List (List String × String)) :
    pick name ps ∈ ps.map Prod.snd ++ ["docs/misc"] := by
  induction ps with
  | nil => simp [pick]
  | cons r rest ih =>
    cases r with
    | mk kws folder =>
      simp only [pick]
      split
      · simp
      · simpa using Or.inr (by simpa using ih)

/-- The folder string of a rule (or the default) starts with the `docs` segment. -/
def startsDocs (f : String) : Bool :=
  match splitPath f with
  | h :: _ => h == "docs"
  | [] => false

theorem all_dests_startDocs :
    (patterns.map Prod.snd ++ ["docs/misc"]).all startsDocs = true := by decide

/-- Every classified destination lies directly under the `docs` directory. -/
theorem guess_starts_docs (stem : String) :
    ∃ rest, guess_target_folder stem = "r" :: "docs" :: rest := by
  have hmem := pick_mem (strUpper stem) patterns
  have hall := List.all_eq_true.mp all_dests_startDocs _ hmem
  unfold startsDocs at hall
  revert hall
  cases hsp : splitPath (pick (strUpper stem) patterns) with
  | nil => intro hall; exact absurd hall (by simp)
  | cons h t =>
    intro hall
    have hd : h = "docs" := by simpa using hall
    refine ⟨t, ?_⟩
    unfold guess_target_folder
    rw [hsp, hd]
    rfl

/-! ### Claim C2 — resolver correctness table -/

/-- C2: the resolver behaves per the spec's correctness table.  From
`docs/a.md`, `./b.md` resolves to `docs/b.md`, `../README.md` to the root
`README.md`, and the filesystem-absolute `/docs/c.md` is interpreted as rooted
at the repository root, giving `docs/c.md`; an `https` URL and a pure-fragment
href are skipped as out of scope by `should_check`; and `../../outside.md`,
which normalizes above the repository root, is classified unresolvable
(`resolve_target` returns `none`). -/
theorem c2_resolver_table :
    resolve_target (ROOT ++ ["docs", "a.md"]) "./b.md" = some (ROOT ++ ["docs", "b.md"]) ∧
    resolve_target (ROOT ++ ["docs", "a.md"]) "../README.md" = some (ROOT ++ ["README.md"]) ∧
    resolve_target (ROOT ++ ["docs", "a.md"]) "/docs/c.md" = some (ROOT ++ ["docs", "c.md"]) ∧
    should_check "https://example.com/x.md" = false ∧
    should_check "#section" = false ∧
    resolve_target (ROOT ++ ["docs", "a.md"]) "../../outside.md" = none :=
  ⟨rfl, rfl, rfl, rfl, rfl, rfl⟩

/-! ### Claim C3 — the classifier is the documented first-match rule lookup -/

/-- Modelled from the spec's words, for comparison with `guess_target_folder`:
"the first rule whose keywords are all present (case-insensitive) in the
uppercased filename stem wins; if none match, a default destination is used". -/
def classifySpec (stem : String) : FilePath0 :=
  match patterns.find? (fun r => r.1.all (fun k => strContains (strUpper stem) k)) with
  | some r => ROOT ++ splitPath r.2
  | none => ROOT ++ splitPath "docs/misc"

/-- C3: classification is a pure function of the stem equal to the declarative
first-match-wins lookup over the fixed priority list, and a stem containing
both the `NEWS` and the `SECURITY` keyword routes to the combined
`docs/news/security` destination, not to plain `docs/news`. -/
theorem c3_classifier_first_match (stem : String) :
    guess_target_folder stem = classifySpec stem ∧
    (strContains (strUpper stem) "NEWS" = true →
      strContains (strUpper stem) "SECURITY" = true →
      guess_target_folder stem = ROOT ++ ["docs", "news", "security"]) := by
  constructor
  · unfold guess_target_folder classifySpec
    rw [pick_eq_find]
    rcases hf : patterns.find? (fun r => r.1.all (fun k => strContains (strUpper stem) k))
      with _ | r <;> rw [hf]
  · intro h1 h2
    unfold guess_target_folder patterns pick
    simp only [h1, h2, List.all_cons, List.all_nil, Bool.and_true, Bool.and_self, if_true]
    rfl

/-- Witness for C3 at the concrete stem `"News-Security-Advisory"`. -/
theorem c3_witness :
    strContains (strUpper "News-Security-Advisory") "NEWS" = true ∧
    strContains (strUpper "News-Security-Advisory") "SECURITY" = true ∧
    guess_target_folder "News-Security-Advisory" = ROOT ++ ["docs", "news", "security"] :=
  ⟨by decide, by decide,
    (c3_classifier_first_match "News-Security-Advisory").2 (by decide) (by decide)⟩

/-! ### Claim C9 — every classified destination is an allowed location -/

/-- C9: every destination the classifier can produce lies under `docs/`
(`docs/` is one of the allowed prefixes), so a file the mover relocates
satisfies `is_allowed` at its new path and can never be classified stray
again. -/
theorem c9_dest_allowed (stem name : String) :
    is_allowed (guess_target_folder stem ++ [name]) = true ∧
    (ROOT ++ ["docs"]) ∈ ALLOWED_PREFIXES ∧
    (ROOT ++ ["docs"]).isPrefixOf (guess_target_folder stem) = true := by
  obtain ⟨rest, hg⟩ := guess_starts_docs stem
  have hpre : (ROOT ++ ["docs"]).isPrefixOf (guess_target_folder stem ++ [name]) = true := by
    rw [isPrefixOfIff]
    exact ⟨rest ++ [name], by rw [hg]; rfl⟩
  have hne : guess_target_folder stem ++ [name] ≠ ROOT ++ ["docs"] := by
    rw [hg]
    intro hEq
    have := congrArg List.length hEq
    simp [ROOT] at this
  refine ⟨?_, by decide, ?_⟩
  · unfold is_allowed
    refine (Bool.or_eq_true _ _).mpr (Or.inr ?_)
    rw [List.any_eq_true]
    refine ⟨ROOT ++ ["docs"], by decide, ?_⟩
    refine (Bool.or_eq_true _ _).mpr (Or.inl ?_)
    unfold isParentOf
    exact (Bool.and_eq_true _ _).mpr ⟨hpre, decide_eq_true hne.symm⟩
  · rw [isPrefixOfIff]
    exact ⟨rest, by rw [hg]; rfl⟩

/-! ### Claim C4 — link-rewrite correctness on the spec's scenario -/

/-- The tree of the C4 scenario, after the move of `x.md` to `docs/misc/x.md`:
`a/b.md` still holds a link spelled against the old location. -/
def c4Tree : FS :=
  FS.mkFS
    [(["r", "a", "b.md"], "[note](x.md)"), (["r", "docs", "misc", "x.md"], "guide")]
    [["r"], ["r", "a"], ["r", "docs"], ["r", "docs", "misc"]]

/-- The single recorded Move of the C4 scenario. -/
def c4Moves : List (FilePath0 × FilePath0) :=
  [(["r", "x.md"], ["r", "docs", "misc", "x.md"])]

/-- C4: after `update_links`, `a/b.md` holds exactly the relative link computed
from `a/` to `docs/misc/x.md` (`../docs/misc/x.md`, which is
`relpath`-correct), it is reported as updated, and no link target of the
rewritten file is any of the four old spellings (`x.md`, `./x.md`, `../x.md`,
`./../x.md`).  "Contains no original spelling" is read on link targets — the
moved file keeps its name, so the bare filename necessarily survives as the
tail of the new link. -/
theorem c4_link_rewrite :
    (update_links c4Tree c4Moves).1.files =
      [(["r", "a", "b.md"], "[note](../docs/misc/x.md)"),
       (["r", "docs", "misc", "x.md"], "guide")] ∧
    (update_links c4Tree c4Moves).2 = [["r", "a", "b.md"]] ∧
    posixOf (relpath (ROOT ++ ["docs", "misc", "x.md"]) ["r", "a"]) = "../docs/misc/x.md" ∧
    extractHrefs "[note](../docs/misc/x.md)" = ["../docs/misc/x.md"] ∧
    (∀ s ∈ (["x.md", "./x.md", "../x.md", "./../x.md"] : List String),
      s ∉ extractHrefs "[note](../docs/misc/x.md)") :=
  ⟨rfl, rfl, rfl, rfl, by decide⟩

/-! ### Lemmas about the mover -/

theorem lookup_append_right_ne (l : List (FilePath0 × String)) (p d : FilePath0)
    (c : String) (h : p ≠ d) :
    List.lookup p (l ++ [(d, c)]) = List.lookup p l := by
  induction l with
  | nil =>
    have hb : (p == d) = false := beq_eq_false_iff_ne.mpr h
    simp [List.lookup, hb]
  | cons e t ih =>
    cases e with
    | mk k v =>
      cases hb : (p == k) with
      | true => simp [List.lookup, hb]
      | false => simp [List.lookup, hb, ih]

theorem lookup_filter_out_ne (l : List (FilePath0 × String)) (p s : FilePath0)
    (h : p ≠ s) :
    List.lookup p (l.filter (fun e => !(e.1 == s))) = List.lookup p l := by
  induction l with
  | nil => simp
  | cons e t ih =>
    cases e with
    | mk k v =>
      by_cases hk : k = s
      · have hpk : (p == k) = false := beq_eq_false_iff_ne.mpr (hk ▸ h)
        have hks : (k == s) = true := beq_iff_eq.mpr hk
        simp [List.filter_cons, List.lookup, hpk, hks, ih]
      · have hks : (k == s) = false := beq_eq_false_iff_ne.mpr hk
        cases hb : (p == k) with
        | true => simp [List.filter_cons, List.lookup, hks, hb]
        | false => simp [List.filter_cons, List.lookup, hks, hb, ih]

theorem mkdirParents_files (fs : FS) (d : FilePath0) :
    (mkdirParents fs d).files = fs.files := rfl

theorem mem_mkdirParents_dirs (fs : FS) (d a : FilePath0) :
    a ∈ (mkdirParents fs d).dirs ↔ a ∈ fs.dirs ∨ a ∈ ancestors d := by
  unfold mkdirParents FS.withDirs
  simp only [List.mem_append, List.mem_filter, Bool.not_eq_true']
  by_cases hm : a ∈ fs.dirs
  · simp [hm]
  · have : fs.dirs.contains a = false := by
      rw [Bool.eq_false_iff]
      intro hc
      exact hm (by simpa using hc)
    simp [hm, this]

theorem self_mem_ancestors (d : FilePath0) (hd : d ≠ []) : d ∈ ancestors d := by
  unfold ancestors
  rw [List.mem_map]
  have hlen : 0 < d.length := List.length_pos.mpr hd
  refine ⟨d.length - 1, ?_, ?_⟩
  · rw [List.mem_range]; omega
  · have h1 : d.length - 1 + 1 = d.length := by omega
    rw [h1, List.take_length]

theorem moveFile_lookup_ne (fs : FS) (src dst p : FilePath0)
    (hs : p ≠ src) (hd : p ≠ dst) :
    List.lookup p (moveFile fs src dst).files = List.lookup p fs.files := by
  unfold moveFile
  cases hc : List.lookup src fs.files with
  | none => rfl
  | some c =>
    simp only [FS.withFiles]
    rw [lookup_append_right_ne _ _ _ _ hd, lookup_filter_out_ne _ _ _ hs]

/-- A raised destination conflict splits the stray list: the files before the
conflicting one were all moved, the conflicting file's destination directories
were created, its overwrite check failed on that post-`mkdir` state, and the
raised message is the conflict message for its destination. -/
theorem move_err_split (l : List FilePath0) (fs fs' : FS) (msg : String)
    (h : move_stray_files fs l = .error (msg, fs')) :
    ∃ done src rest fsd mvs,
      l = done ++ src :: rest ∧
      move_stray_files fs done = .ok (fsd, mvs) ∧
      fs' = mkdirParents fsd (guess_target_folder (stemOfName (fileName src))) ∧
      fsExists fs' (guess_target_folder (stemOfName (fileName src)) ++ [fileName src]) = true ∧
      msg = conflictMsg (guess_target_folder (stemOfName (fileName src)) ++ [fileName src]) := by
  induction l generalizing fs with
  | nil => simp [move_stray_files] at h
  | cons source rest ih =>
    simp only [move_stray_files] at h
    split at h
    · next hex =>
      have h1 : conflictMsg (guess_target_folder (stemOfName (fileName source)) ++ [fileName source]) = msg
          ∧ mkdirParents fs (guess_target_folder (stemOfName (fileName source))) = fs' := by
        simpa using h
      refine ⟨[], source, rest, fs, [], rfl, rfl, ?_, ?_, ?_⟩
      · exact h1.2.symm
      · rw [← h1.2]; exact hex
      · exact h1.1.symm
    · next hex =>
      cases hm : move_stray_files
          (moveFile (mkdirParents fs (guess_target_folder (stemOfName (fileName source))))
            source (guess_target_folder (stemOfName (fileName source)) ++ [fileName source]))
          rest with
      | ok pair =>
        rw [hm] at h
        simp at h
      | error e =>
        rw [hm] at h
        have he : e = (msg, fs') := by simpa using h
        subst he
        obtain ⟨done, src, rest', fsd, mvs, hsplit, hok, hfs, hex2, hmsg⟩ := ih _ hm
        refine ⟨source :: done, src, rest', fsd,
          (source, guess_target_folder (stemOfName (fileName source)) ++ [fileName source]) :: mvs,
          by rw [hsplit]; rfl, ?_, hfs, hex2, hmsg⟩
        simp only [move_stray_files]
        rw [if_neg hex, hok]

/-- A successful run of `move_stray_files` only removes its source files and
creates its destination files; any other path's content is untouched. -/
theorem move_ok_frame (l : List FilePath0) (fs fs1 : FS)
    (mvs : List (FilePath0 × FilePath0))
    (h : move_stray_files fs l = .ok (fs1, mvs)) (p : FilePath0)
    (hp : ∀ s ∈ l, p ≠ s) (hd : p ∉ mvs.map Prod.snd) :
    List.lookup p fs1.files = List.lookup p fs.files := by
  induction l generalizing fs mvs with
  | nil =>
    have h1 : fs = fs1 ∧ [] = mvs := by simpa [move_stray_files] using h
    rw [← h1.1]
  | cons source rest ih =>
    simp only [move_stray_files] at h
    split at h
    · simp at h
    · cases hm : move_stray_files
          (moveFile (mkdirParents fs (guess_target_folder (stemOfName (fileName source))))
            source (guess_target_folder (stemOfName (fileName source)) ++ [fileName source]))
          rest with
      | error e => rw [hm] at h; simp at h
      | ok pair =>
        rw [hm] at h
        cases pair with
        | mk pfs pmvs =>
          have h2 : pfs = fs1 ∧
              (source, guess_target_folder (stemOfName (fileName source)) ++ [fileName source])
                :: pmvs = mvs := by
            simpa using h
          obtain ⟨h2a, h2b⟩ := h2
          subst h2a
          rw [← h2b] at hd
          simp only [List.map_cons, List.mem_cons, not_or] at hd
          have hrec := ih _ _ hm (fun s hs => hp s (List.mem_cons_of_mem _ hs)) hd.2
          rw [hrec, moveFile_lookup_ne _ _ _ _ (hp source (List.mem_cons_self _ _)) hd.1,
            mkdirParents_files]

/-! ### Claim C1 — no silent overwrite, abort on conflict -/

/-- C1: when the mover raises, the stray list splits as
`done ++ conflicting :: remaining`: the error message is exactly the conflict
message naming the conflicting destination path (which it contains as a
substring), the destination exists at the moment of the check, the remaining
moves were never attempted (only the `done` prefix was executed), the abort
itself touches no file, and every pre-existing file that is neither an earlier
stray source nor an earlier destination — in particular the conflicting
destination file — still holds its original content. -/
theorem c1_mover_no_overwrite (fs fs' : FS) (stray_files : List FilePath0)
    (msg : String)
    (h : move_stray_files fs stray_files = .error (msg, fs')) :
    ∃ done src rest fsd mvs,
      stray_files = done ++ src :: rest ∧
      move_stray_files fs done = .ok (fsd, mvs) ∧
      msg = conflictMsg (guess_target_folder (stemOfName (fileName src)) ++ [fileName src]) ∧
      strContains msg
        (pathString (guess_target_folder (stemOfName (fileName src)) ++ [fileName src])) = true ∧
      fsExists fs' (guess_target_folder (stemOfName (fileName src)) ++ [fileName src]) = true ∧
      fs'.files = fsd.files ∧
      (∀ p c, List.lookup p fs.files = some c → (∀ s ∈ done, p ≠ s) →
        p ∉ mvs.map Prod.snd → List.lookup p fs'.files = some c) := by
  obtain ⟨done, src, rest, fsd, mvs, hsplit, hok, hfs, hex, hmsg⟩ :=
    move_err_split stray_files fs fs' msg h
  refine ⟨done, src, rest, fsd, mvs, hsplit, hok, hmsg, ?_, hex, ?_, ?_⟩
  · rw [hmsg]
    unfold conflictMsg
    exact strContains_middle _ _ _
  · rw [hfs, mkdirParents_files]
  · intro p c hc hps hpd
    rw [hfs, mkdirParents_files, move_ok_frame done fs fsd mvs hok p hps hpd]
    exact hc

theorem strContains_left (a b : String) : strContains (a ++ b) a = true := by
  rw [strContains_infix_iff, strAppend_toList]
  exact (List.prefix_append _ _).isInfix

theorem strContains_right (a b : String) : strContains (a ++ b) b = true := by
  rw [strContains_infix_iff, strAppend_toList]
  exact (List.suffix_append _ _).isInfix

theorem guess_target_folder_ne_nil (stem : String) : guess_target_folder stem ≠ [] := by
  obtain ⟨rest, hg⟩ := guess_starts_docs stem
  rw [hg]
  simp

/-- Witness for C1: a one-element stray list whose destination
`docs/ui-ux/GUIDE_UI.md` is already occupied; the mover aborts with the
conflict message and the destination keeps its content `"u0"`. -/
theorem c1_witness :
    ∃ done src rest fsd mvs,
      ([["r", "GUIDE_UI.md"]] : List FilePath0) = done ++ src :: rest ∧
      move_stray_files
        (FS.mkFS [(["r", "GUIDE_UI.md"], "u1"), (["r", "docs", "ui-ux", "GUIDE_UI.md"], "u0")]
          [["r"], ["r", "docs"], ["r", "docs", "ui-ux"]]) done = .ok (fsd, mvs) ∧
      conflictMsg ["r", "docs", "ui-ux", "GUIDE_UI.md"]
        = conflictMsg (guess_target_folder (stemOfName (fileName src)) ++ [fileName src]) ∧
      strContains (conflictMsg ["r", "docs", "ui-ux", "GUIDE_UI.md"])
        (pathString (guess_target_folder (stemOfName (fileName src)) ++ [fileName src])) = true ∧
      fsExists
        (FS.mkFS [(["r", "GUIDE_UI.md"], "u1"), (["r", "docs", "ui-ux", "GUIDE_UI.md"], "u0")]
          [["r"], ["r", "docs"], ["r", "docs", "ui-ux"]])
        (guess_target_folder (stemOfName (fileName src)) ++ [fileName src]) = true ∧
      (FS.mkFS [(["r", "GUIDE_UI.md"], "u1"), (["r", "docs", "ui-ux", "GUIDE_UI.md"], "u0")]
          [["r"], ["r", "docs"], ["r", "docs", "ui-ux"]]).files = fsd.files ∧
      (∀ p c,
        List.lookup p
          (FS.mkFS [(["r", "GUIDE_UI.md"], "u1"), (["r", "docs", "ui-ux", "GUIDE_UI.md"], "u0")]
            [["r"], ["r", "docs"], ["r", "docs", "ui-ux"]]).files = some c →
        (∀ s ∈ done, p ≠ s) → p ∉ mvs.map Prod.snd →
        List.lookup p
          (FS.mkFS [(["r", "GUIDE_UI.md"], "u1"), (["r", "docs", "ui-ux", "GUIDE_UI.md"], "u0")]
            [["r"], ["r", "docs"], ["r", "docs", "ui-ux"]]).files = some c) :=
  c1_mover_no_overwrite
    (FS.mkFS [(["r", "GUIDE_UI.md"], "u1"), (["r", "docs", "ui-ux", "GUIDE_UI.md"], "u0")]
      [["r"], ["r", "docs"], ["r", "docs", "ui-ux"]])
    (FS.mkFS [(["r", "GUIDE_UI.md"], "u1"), (["r", "docs", "ui-ux", "GUIDE_UI.md"], "u0")]
      [["r"], ["r", "docs"], ["r", "docs", "ui-ux"]])
    [["r", "GUIDE_UI.md"]]
    (conflictMsg ["r", "docs", "ui-ux", "GUIDE_UI.md"])
    rfl

/-! ### Claim C10 — directories are created before the overwrite check -/

/-- C10: on an abort, the stray list splits as `done ++ conflicting ::
remaining`; the earlier files remain moved (the `done` run succeeded and the
abort state's files are exactly its result), the conflicting file's target
directory — with all its ancestors, tolerating ones that already exist — was
created before the failed overwrite check (the check happens on the
post-`mkdir` state), and nothing else is mutated: the abort state is exactly
the `done`-state plus those directories. -/
theorem c10_abort_frame (fs fs' : FS) (stray_files : List FilePath0) (msg : String)
    (h : move_stray_files fs stray_files = .error (msg, fs')) :
    ∃ done src rest fsd mvs,
      stray_files = done ++ src :: rest ∧
      move_stray_files fs done = .ok (fsd, mvs) ∧
      fs' = mkdirParents fsd (guess_target_folder (stemOfName (fileName src))) ∧
      fs'.files = fsd.files ∧
      guess_target_folder (stemOfName (fileName src)) ∈ fs'.dirs ∧
      (∀ a, a ∈ fs'.dirs ↔
        a ∈ fsd.dirs ∨ a ∈ ancestors (guess_target_folder (stemOfName (fileName src)))) ∧
      fsExists fs' (guess_target_folder (stemOfName (fileName src)) ++ [fileName src]) = true := by
  obtain ⟨done, src, rest, fsd, mvs, hsplit, hok, hfs, hex, hmsg⟩ :=
    move_err_split stray_files fs fs' msg h
  refine ⟨done, src, rest, fsd, mvs, hsplit, hok, hfs, ?_, ?_, ?_, hex⟩
  · rw [hfs, mkdirParents_files]
  · rw [hfs]
    exact (mem_mkdirParents_dirs _ _ _).mpr
      (Or.inr (self_mem_ancestors _ (guess_target_folder_ne_nil _)))
  · intro a
    rw [hfs]
    exact mem_mkdirParents_dirs _ _ _

/-- Witness for C10: the stray `NOTES_API.md` classifies to `docs/api`, whose
directory does not yet exist; the run creates it and then aborts on the
occupied destination, leaving exactly that directory created. -/
theorem c10_witness :
    ∃ done src rest fsd mvs,
      ([["r", "NOTES_API.md"]] : List FilePath0) = done ++ src :: rest ∧
      move_stray_files
        (FS.mkFS [(["r", "NOTES_API.md"], "n1"), (["r", "docs", "api", "NOTES_API.md"], "n0")]
          [["r"], ["r", "docs"]]) done = .ok (fsd, mvs) ∧
      (FS.mkFS [(["r", "NOTES_API.md"], "n1"), (["r", "docs", "api", "NOTES_API.md"], "n0")]
          [["r"], ["r", "docs"], ["r", "docs", "api"]])
        = mkdirParents fsd (guess_target_folder (stemOfName (fileName src))) ∧
      (FS.mkFS [(["r", "NOTES_API.md"], "n1"), (["r", "docs", "api", "NOTES_API.md"], "n0")]
          [["r"], ["r", "docs"], ["r", "docs", "api"]]).files = fsd.files ∧
      guess_target_folder (stemOfName (fileName src))
        ∈ (FS.mkFS [(["r", "NOTES_API.md"], "n1"), (["r", "docs", "api", "NOTES_API.md"], "n0")]
            [["r"], ["r", "docs"], ["r", "docs", "api"]]).dirs ∧
      (∀ a, a ∈ (FS.mkFS [(["r", "NOTES_API.md"], "n1"), (["r", "docs", "api", "NOTES_API.md"], "n0")]
            [["r"], ["r", "docs"], ["r", "docs", "api"]]).dirs ↔
        a ∈ fsd.dirs ∨ a ∈ ancestors (guess_target_folder (stemOfName (fileName src)))) ∧
      fsExists
        (FS.mkFS [(["r", "NOTES_API.md"], "n1"), (["r", "docs", "api", "NOTES_API.md"], "n0")]
          [["r"], ["r", "docs"], ["r", "docs", "api"]])
        (guess_target_folder (stemOfName (fileName src)) ++ [fileName src]) = true :=
  c10_abort_frame
    (FS.mkFS [(["r", "NOTES_API.md"], "n1"), (["r", "docs", "api", "NOTES_API.md"], "n0")]
      [["r"], ["r", "docs"]])
    (FS.mkFS [(["r", "NOTES_API.md"], "n1"), (["r", "docs", "api", "NOTES_API.md"], "n0")]
      [["r"], ["r", "docs"], ["r", "docs", "api"]])
    [["r", "NOTES_API.md"]]
    (conflictMsg ["r", "docs", "api", "NOTES_API.md"])
    rfl

/-! ### Claim C8 — what the conflict error actually reports (corrected) -/

/-- Counterexample to C8: with two strays `ALPHA.md` and `BRAVO.md` and
`docs/misc/BRAVO.md` occupied, exactly one move succeeds before the abort
(`ALPHA.md` is at its destination and gone from the root), yet the raised
message is the fixed conflict text: it holds no digit at all and not the word
"one", so it does not report how many moves succeeded. -/
theorem c8_counterexample :
    move_stray_files
      (FS.mkFS
        [(["r", "ALPHA.md"], "aa"), (["r", "BRAVO.md"], "bb"),
         (["r", "docs", "misc", "BRAVO.md"], "old")]
        [["r"], ["r", "docs"], ["r", "docs", "misc"]])
      [["r", "ALPHA.md"], ["r", "BRAVO.md"]]
      = .error
          ("Refusing to overwrite existing file: /r/docs/misc/BRAVO.md. Resolve the conflict and rerun the command.",
           FS.mkFS
             [(["r", "BRAVO.md"], "bb"), (["r", "docs", "misc", "BRAVO.md"], "old"),
              (["r", "docs", "misc", "ALPHA.md"], "aa")]
             [["r"], ["r", "docs"], ["r", "docs", "misc"]]) ∧
    List.lookup ["r", "docs", "misc", "ALPHA.md"]
      [(["r", "BRAVO.md"], "bb"), (["r", "docs", "misc", "BRAVO.md"], "old"),
       (["r", "docs", "misc", "ALPHA.md"], "aa")] = some "aa" ∧
    List.lookup ["r", "ALPHA.md"]
      [(["r", "BRAVO.md"], "bb"), (["r", "docs", "misc", "BRAVO.md"], "old"),
       (["r", "docs", "misc", "ALPHA.md"], "aa")] = none ∧
    ("Refusing to overwrite existing file: /r/docs/misc/BRAVO.md. Resolve the conflict and rerun the command.").toList.all
      (fun ch => !ch.isDigit) = true ∧
    strContains
      "Refusing to overwrite existing file: /r/docs/misc/BRAVO.md. Resolve the conflict and rerun the command."
      "one" = false :=
  ⟨rfl, rfl, rfl, by decide, by decide⟩

/-- C8 as amended: when the mover aborts, its error is the conflict message for
the conflicting stray's destination — it identifies that path and carries the
fixed refusal and rerun instructions, but (per the counterexample) it does not
state how many moves succeeded before the failure. -/
theorem c8_amended_error_content (fs fs' : FS) (stray_files : List FilePath0)
    (msg : String)
    (h : move_stray_files fs stray_files = .error (msg, fs')) :
    ∃ src, src ∈ stray_files ∧
      msg = conflictMsg (guess_target_folder (stemOfName (fileName src)) ++ [fileName src]) ∧
      strContains msg "Refusing to overwrite existing file: " = true ∧
      strContains msg "Resolve the conflict and rerun the command." = true := by
  obtain ⟨done, src, rest, fsd, mvs, hsplit, hok, hfs, hex, hmsg⟩ :=
    move_err_split stray_files fs fs' msg h
  refine ⟨src, ?_, hmsg, ?_, ?_⟩
  · rw [hsplit]
    exact List.mem_append.mpr (Or.inr (List.mem_cons_self _ _))
  · rw [hmsg]
    unfold conflictMsg
    rw [String.append_assoc]
    exact strContains_left _ _
  · rw [hmsg]
    unfold conflictMsg
    rw [strContains_infix_iff, strAppend_toList]
    have hsfx : ("Resolve the conflict and rerun the command.").toList
        <:+ (". Resolve the conflict and rerun the command.").toList := by decide
    exact (hsfx.trans (List.suffix_append _ _)).isInfix

/-- Witness for C8's amended statement, on the stray `CHANGELOG_PLAN.md`
whose destination `docs/planning/CHANGELOG_PLAN.md` is occupied. -/
theorem c8_witness :
    ∃ src, src ∈ ([["r", "CHANGELOG_PLAN.md"]] : List FilePath0) ∧
      conflictMsg ["r", "docs", "planning", "CHANGELOG_PLAN.md"]
        = conflictMsg (guess_target_folder (stemOfName (fileName src)) ++ [fileName src]) ∧
      strContains (conflictMsg ["r", "docs", "planning", "CHANGELOG_PLAN.md"])
        "Refusing to overwrite existing file: " = true ∧
      strContains (conflictMsg ["r", "docs", "planning", "CHANGELOG_PLAN.md"])
        "Resolve the conflict and rerun the command." = true :=
  c8_amended_error_content
    (FS.mkFS
      [(["r", "CHANGELOG_PLAN.md"], "p1"),
       (["r", "docs", "planning", "CHANGELOG_PLAN.md"], "p0")]
      [["r"], ["r", "docs"], ["r", "docs", "planning"]])
    (FS.mkFS
      [(["r", "CHANGELOG_PLAN.md"], "p1"),
       (["r", "docs", "planning", "CHANGELOG_PLAN.md"], "p0")]
      [["r"], ["r", "docs"], ["r", "docs", "planning"]])
    [["r", "CHANGELOG_PLAN.md"]]
    (conflictMsg ["r", "docs", "planning", "CHANGELOG_PLAN.md"])
    rfl

/-! ### Claim C5 — the fix pipeline is idempotent -/

/-- C5: after a successful fix run, no scanned Markdown file is outside the
allowed locations (`main`'s own convergence re-check guarantees the stray scan
of the resulting tree is empty), so running the fix pipeline again on the
resulting tree performs no moves and no content changes at all: the second run
succeeds and returns the tree unchanged. -/
theorem c5_fix_idempotent (fs fs2 : FS)
    (h : organizerMain true fs = .ok fs2) :
    find_stray_markdown fs2 = [] ∧ organizerMain true fs2 = .ok fs2 := by
  unfold organizerMain at h
  cases hp : organizerPhase1 true fs with
  | error m => rw [hp] at h; exact absurd h (by simp)
  | ok fs2' =>
    rw [hp] at h
    dsimp only at h
    cases hd : ensure_docs_root_only_index fs2' with
    | error m => rw [hd] at h; exact absurd h (by simp)
    | ok u =>
      rw [hd] at h
      by_cases hs : (find_stray_markdown fs2').isEmpty = true
      · have hif : (true && !(find_stray_markdown fs2').isEmpty) = false := by
          rw [hs]; rfl
        rw [hif] at h
        simp at h
        subst h
        have hstray : find_stray_markdown fs2' = [] := by
          rwa [List.isEmpty_iff] at hs
        refine ⟨hstray, ?_⟩
        unfold organizerMain organizerPhase1
        rw [hstray]
        simp [hd, hstray]
      · have hif : (true && !(find_stray_markdown fs2').isEmpty) = true := by
          simp only [Bool.not_eq_true] at hs
          simp [hs]
        rw [hif] at h
        simp at h

/-- Witness for C5: a tree whose single stray `PLAN.md` is moved to
`docs/planning/` by a successful fix run; the second run is a no-op. -/
theorem c5_witness :
    find_stray_markdown
      (FS.mkFS
        [(["r", "README.md"], "hello"), (["r", "docs", "planning", "PLAN.md"], "todo")]
        [["r"], ["r", "docs"], ["r", "docs", "planning"]]) = [] ∧
    organizerMain true
      (FS.mkFS
        [(["r", "README.md"], "hello"), (["r", "docs", "planning", "PLAN.md"], "todo")]
        [["r"], ["r", "docs"], ["r", "docs", "planning"]])
      = .ok
          (FS.mkFS
            [(["r", "README.md"], "hello"), (["r", "docs", "planning", "PLAN.md"], "todo")]
            [["r"], ["r", "docs"], ["r", "docs", "planning"]]) :=
  c5_fix_idempotent
    (FS.mkFS [(["r", "README.md"], "hello"), (["r", "PLAN.md"], "todo")]
      [["r"], ["r", "docs"]])
    (FS.mkFS
      [(["r", "README.md"], "hello"), (["r", "docs", "planning", "PLAN.md"], "todo")]
      [["r"], ["r", "docs"], ["r", "docs", "planning"]])
    rfl

/-! ### Claim C7 — the docs-root singleton check (corrected) -/

/-- Counterexample to C7: a tree holding both a stray (`STRAY.md` at the root)
and an offending docs-root child (`docs/EXTRA.md`), run without the fix flag.
`main` raises the stray-detection error before ever reaching
`ensure_docs_root_only_index`, so this control-flow path's fatal error does
not report the offending path: the claim's "in every control-flow path" fails. -/
theorem c7_counterexample :
    docsRootOffenders
      (FS.mkFS
        [(["r", "STRAY.md"], "s"), (["r", "docs", "EXTRA.md"], "x"),
         (["r", "docs", "README.md"], "i"), (["r", "README.md"], "rr")]
        [["r"], ["r", "docs"]]) = [["r", "docs", "EXTRA.md"]] ∧
    organizerMain false
      (FS.mkFS
        [(["r", "STRAY.md"], "s"), (["r", "docs", "EXTRA.md"], "x"),
         (["r", "docs", "README.md"], "i"), (["r", "README.md"], "rr")]
        [["r"], ["r", "docs"]])
      = .error (strayDetectMsg 1) ∧
    strContains (strayDetectMsg 1) "EXTRA.md" = false ∧
    strayDetectMsg 1 ≠ docsRootMsg [["r", "docs", "EXTRA.md"]] :=
  ⟨rfl, rfl, by decide, by decide⟩

/-- C7 as amended: whenever the stray-handling phase completes without raising
(in detect mode because no strays exist, in fix mode also when all moves
succeed), a non-`README.md` immediate `*.md` child of the docs root makes the
run fail with the docs-root error, which lists every offending path — and this
holds for both values of the fix flag. -/
theorem c7_amended_docs_root_check (fix : Bool) (fs fs2 : FS)
    (h1 : organizerPhase1 fix fs = .ok fs2)
    (h2 : docsRootOffenders fs2 ≠ []) :
    organizerMain fix fs = .error (docsRootMsg (docsRootOffenders fs2)) ∧
    ∀ p ∈ docsRootOffenders fs2,
      strContains (docsRootMsg (docsRootOffenders fs2)) (relString p) = true := by
  constructor
  · unfold organizerMain
    rw [h1]
    simp only [ensure_docs_root_only_index]
    rw [if_neg h2]
  · intro p hp
    unfold docsRootMsg
    rw [strContains_infix_iff, strAppend_toList]
    have hmem : (" - " ++ relString p)
        ∈ (docsRootOffenders fs2).map (fun q => " - " ++ relString q) :=
      List.mem_map.mpr ⟨p, hp, rfl⟩
    have hj := joinSep_member_occurs "\n" _ _ hmem
    have hsfx : (relString p).toList <:+ (" - " ++ relString p).toList := by
      rw [strAppend_toList]; exact List.suffix_append _ _
    exact (hsfx.isInfix.trans hj).trans (List.suffix_append _ _).isInfix

/-- Witness for C7's amended statement: no strays, fix flag off, and the
offending `docs/EXTRA.md` present — the run fails with the docs-root error
naming it. -/
theorem c7_witness :
    organizerMain false
      (FS.mkFS
        [(["r", "docs", "EXTRA.md"], "x"), (["r", "docs", "README.md"], "i"),
         (["r", "README.md"], "rr")]
        [["r"], ["r", "docs"]])
      = .error
          (docsRootMsg
            (docsRootOffenders
              (FS.mkFS
                [(["r", "docs", "EXTRA.md"], "x"), (["r", "docs", "README.md"], "i"),
                 (["r", "README.md"], "rr")]
                [["r"], ["r", "docs"]]))) ∧
    ∀ p ∈ docsRootOffenders
        (FS.mkFS
          [(["r", "docs", "EXTRA.md"], "x"), (["r", "docs", "README.md"], "i"),
           (["r", "README.md"], "rr")]
          [["r"], ["r", "docs"]]),
      strContains
        (docsRootMsg
          (docsRootOffenders
            (FS.mkFS
              [(["r", "docs", "EXTRA.md"], "x"), (["r", "docs", "README.md"], "i"),
               (["r", "README.md"], "rr")]
              [["r"], ["r", "docs"]])))
        (relString p) = true :=
  c7_amended_docs_root_check false
    (FS.mkFS
      [(["r", "docs", "EXTRA.md"], "x"), (["r", "docs", "README.md"], "i"),
       (["r", "README.md"], "rr")]
      [["r"], ["r", "docs"]])
    (FS.mkFS
      [(["r", "docs", "EXTRA.md"], "x"), (["r", "docs", "README.md"], "i"),
       (["r", "README.md"], "rr")]
      [["r"], ["r", "docs"]])
    rfl (by decide)

/-! ### Claim C6 — the checker aggregates every broken link -/

theorem broken_match_iff (fs : FS) (p : FilePath0) (href : String) :
    brokenPred fs p href = true
      ↔ (∀ t, resolve_target p href = some t → fsExists fs t = false) := by
  unfold brokenPred
  cases hr : resolve_target p href with
  | none => simp
  | some t => simp

/-- A pair is among the checker's accumulated errors exactly when its href
occurs in a scanned Markdown file and is in scope but does not resolve to an
existing entry. -/
theorem mem_checkerErrors (fs : FS) (p : FilePath0) (href : String) :
    (p, href) ∈ checkerErrors fs ↔
      ∃ text, (p, text) ∈ fs.files ∧ should_skip p = false ∧ isMdPath p = true ∧
        href ∈ extractHrefs text ∧ should_check href = true ∧
        (∀ t, resolve_target p href = some t → fsExists fs t = false) := by
  constructor
  · intro hmem
    unfold checkerErrors at hmem
    rw [List.mem_flatMap] at hmem
    obtain ⟨e, he, hin⟩ := hmem
    obtain ⟨e1, e2⟩ := e
    rw [List.mem_map] at hin
    obtain ⟨h0, hh0, heq⟩ := hin
    have hp : e1 = p := congrArg Prod.fst heq
    have hh : h0 = href := congrArg Prod.snd heq
    subst hp
    subst hh
    unfold iter_markdown at he
    rw [List.mem_filter] at he
    obtain ⟨hef, hcond⟩ := he
    rw [Bool.and_eq_true, Bool.not_eq_true'] at hcond
    unfold brokenHrefs at hh0
    rw [List.mem_filter, Bool.and_eq_true] at hh0
    obtain ⟨hhr, hsc, hbr⟩ := hh0
    exact ⟨e2, hef, hcond.1, hcond.2, hhr, hsc, (broken_match_iff fs e1 h0).mp hbr⟩
  · rintro ⟨text, hft, hskip, hmd, hhr, hsc, hres⟩
    unfold checkerErrors iter_markdown brokenHrefs
    rw [List.mem_flatMap]
    refine ⟨(p, text), ?_, ?_⟩
    · rw [List.mem_filter]
      exact ⟨hft, by simp [hskip, hmd]⟩
    · rw [List.mem_map]
      refine ⟨href, ?_, rfl⟩
      rw [List.mem_filter]
      refine ⟨hhr, ?_⟩
      rw [Bool.and_eq_true]
      exact ⟨hsc, (broken_match_iff fs p href).mpr hres⟩

/-- C6: the checker exits 0 (printing the success line) exactly when every
in-scope href of every scanned Markdown file resolves to an existing in-tree
entry; otherwise it exits 1, and its accumulated error list holds every
failing (referencing file, href) pair — including hrefs resolving outside the
tree — never stopping at the first. -/
theorem c6_checker_aggregates (fs : FS) :
    (checkerExit fs = 0 ↔
      ∀ p text, (p, text) ∈ fs.files → should_skip p = false → isMdPath p = true →
        ∀ href ∈ extractHrefs text, should_check href = true →
          ∃ t, resolve_target p href = some t ∧ fsExists fs t = true) ∧
    (∀ p href, (p, href) ∈ checkerErrors fs ↔
      ∃ text, (p, text) ∈ fs.files ∧ should_skip p = false ∧ isMdPath p = true ∧
        href ∈ extractHrefs text ∧ should_check href = true ∧
        (∀ t, resolve_target p href = some t → fsExists fs t = false)) ∧
    (checkerExit fs = 0 ↔ checkerTopLine fs = "Markdown link check passed.") ∧
    (checkerExit fs = 0 ∨ checkerExit fs = 1) := by
  have hempty : checkerExit fs = 0 ↔ checkerErrors fs = [] := by
    by_cases he : checkerErrors fs = []
    · simp [checkerExit, he]
    · simp [checkerExit, he]
  refine ⟨?_, fun p href => mem_checkerErrors fs p href, ?_, ?_⟩
  · rw [hempty, List.eq_nil_iff_forall_not_mem]
    constructor
    · intro hno p text hft hskip hmd href hhr hsc
      by_contra hnex
      apply hno (p, href)
      rw [mem_checkerErrors fs p href]
      refine ⟨text, hft, hskip, hmd, hhr, hsc, ?_⟩
      intro t ht
      by_contra hfe
      exact hnex ⟨t, ht, by simpa using hfe⟩
    · intro hall pr hpr
      obtain ⟨p, href⟩ := pr
      obtain ⟨text, hft, hskip, hmd, hhr, hsc, hres⟩ :=
        (mem_checkerErrors fs p href).mp hpr
      obtain ⟨t, ht, hte⟩ := hall p text hft hskip hmd href hhr hsc
      rw [hres t ht] at hte
      exact absurd hte (by simp)
  · rw [hempty]
    by_cases he : checkerErrors fs = []
    · constructor
      · intro _
        unfold checkerTopLine
        rw [if_pos he]
      · intro _
        exact he
    · constructor
      · intro h
        exact absurd h he
      · intro htop
        unfold checkerTopLine at htop
        rw [if_neg he] at htop
        exact absurd htop (by decide)
  · by_cases he : checkerErrors fs = []
    · exact Or.inl (by simp [checkerExit, he])
    · exact Or.inr (by simp [checkerExit, he])
